import Mathlib

/-!
Shallow embedding of the trading backtest engine of `ai-agent-trader`
(`backtester.py`, `indicators.py`, `risk_manager.py`).

Prices, balances and indicator values are exact rationals; a pandas `NaN`
is modelled as `Option.none`.  Each definition mirrors one Python function
or code block; the mapping is given in the doc comments.
-/

/-- One OHLCV row of the input DataFrame.  The field `open_` stands for the
`open` column (`open` is a Lean keyword). -/
structure Candle where
  timestamp : Int
  open_ : ℚ
  high : ℚ
  low : ℚ
  close : ℚ
  volume : ℚ
  deriving DecidableEq

/-- Placeholder candle used as the `List.getD` default; it is only ever
returned for out-of-range indices, which the embedded code never uses. -/
def cDefault : Candle := ⟨0, 0, 0, 0, 0, 0⟩

/-! ## indicators.py -/

/-- `delta = df["close"].diff(); gain = delta.where(delta > 0, 0.0)`.
The `NaN` of `diff()` at index 0 fails the `delta > 0` test, so `gain[0] = 0`. -/
def gains (closes : List ℚ) : List ℚ :=
  (List.range closes.length).map fun i =>
    if i = 0 then 0
    else
      let d := closes.getD i 0 - closes.getD (i - 1) 0
      if 0 < d then d else 0

/-- `loss = -delta.where(delta < 0, 0.0)`; as for `gains`, `loss[0] = 0`. -/
def losses (closes : List ℚ) : List ℚ :=
  (List.range closes.length).map fun i =>
    if i = 0 then 0
    else
      let d := closes.getD i 0 - closes.getD (i - 1) 0
      if d < 0 then -d else 0

/-- Running state of pandas `Series.ewm(alpha=α, adjust=True).mean()`:
numerator `s_t = (1-α)·s_{t-1} + x_t`, weight `w_t = (1-α)·w_{t-1} + 1`,
output `s_t / w_t` (the closed form of the weighted mean with weights
`(1-α)^k`). -/
def ewmGo (alpha : ℚ) : ℚ → ℚ → List ℚ → List ℚ
  | _, _, [] => []
  | s, w, x :: rest =>
    let s' := (1 - alpha) * s + x
    let w' := (1 - alpha) * w + 1
    s' / w' :: ewmGo alpha s' w' rest

/-- `Series.ewm(alpha=α, adjust=True).mean()` over a NaN-free series. -/
def ewmMean (alpha : ℚ) (xs : List ℚ) : List ℚ := ewmGo alpha 0 0 xs

/-- The `min_periods=period` mask of `ewm(...).mean()`: the first
`period - 1` outputs are `NaN` (the inputs here contain no `NaN`, so the
observation count at index `i` is `i + 1`). -/
def withMinPeriods (period : ℕ) (xs : List ℚ) : List (Option ℚ) :=
  (List.range xs.length).map fun i =>
    if i + 1 < period then none else some (xs.getD i 0)

/-- Default argument `period=14` of `calculate_rsi`. -/
def rsi_period : ℕ := 14

/-- `avg_gain = gain.ewm(alpha=1/period, min_periods=period).mean()`. -/
def avg_gain (closes : List ℚ) : List (Option ℚ) :=
  withMinPeriods rsi_period (ewmMean (1 / (rsi_period : ℚ)) (gains closes))

/-- `avg_loss = loss.ewm(alpha=1/period, min_periods=period).mean()`. -/
def avg_loss (closes : List ℚ) : List (Option ℚ) :=
  withMinPeriods rsi_period (ewmMean (1 / (rsi_period : ℚ)) (losses closes))

/-- `calculate_rsi`: `rs = avg_gain / avg_loss.replace(0, np.nan)` and
`100 - (100 / (1 + rs))`; the result is `NaN` (`none`) whenever either
smoothed average is undefined or `avg_loss` is exactly zero. -/
def calculate_rsi (closes : List ℚ) : List (Option ℚ) :=
  (List.range closes.length).map fun i =>
    match (avg_gain closes).getD i none, (avg_loss closes).getD i none with
    | some g, some l => if l = 0 then none else some (100 - 100 / (1 + g / l))
    | _, _ => none

/-- Tail recursion of `ewm(span=n, adjust=False).mean()`:
`y_t = α·x_t + (1-α)·y_{t-1}`. -/
def emaGo (alpha : ℚ) : ℚ → List ℚ → List ℚ
  | _, [] => []
  | prev, x :: rest =>
    let v := alpha * x + (1 - alpha) * prev
    v :: emaGo alpha v rest

/-- `Series.ewm(span=n, adjust=False).mean()`: seeded with the first value,
smoothing factor `α = 2/(n+1)`. -/
def ewm_span (xs : List ℚ) (span : ℕ) : List ℚ :=
  match xs with
  | [] => []
  | x :: rest => x :: emaGo (2 / ((span : ℚ) + 1)) x rest

/-- `calculate_ema(df, period)` = `df["close"].ewm(span=period, adjust=False).mean()`. -/
def calculate_ema (closes : List ℚ) (period : ℕ) : List ℚ :=
  ewm_span closes period

/-- Return value of `calculate_macd`: the dict
`{"macd": ..., "signal": ..., "histogram": ...}`. -/
structure MACDSeries where
  macd : List ℚ
  signal : List ℚ
  histogram : List ℚ
  deriving DecidableEq

/-- `calculate_macd(df, fast=12, slow=26, signal=9)`. -/
def calculate_macd (closes : List ℚ) : MACDSeries :=
  let macd_line := List.zipWith (· - ·) (ewm_span closes 12) (ewm_span closes 26)
  let signal_line := ewm_span macd_line 9
  { macd := macd_line
    signal := signal_line
    histogram := List.zipWith (· - ·) macd_line signal_line }

/-- `true_range`: per-row max of `high-low`, `|high-prev_close|`,
`|low-prev_close|`.  pandas `.max(axis=1)` skips `NaN` (default
`skipna=True`), so index 0 yields `high - low` instead of `NaN`. -/
def true_range (df : List Candle) : List ℚ :=
  (List.range df.length).map fun i =>
    let c := df.getD i cDefault
    if i = 0 then c.high - c.low
    else
      let pc := (df.getD (i - 1) cDefault).close
      max (c.high - c.low) (max |c.high - pc| |c.low - pc|)

/-- Default argument `period=14` of `calculate_atr`. -/
def atr_period : ℕ := 14

/-- `Series.rolling(window=period).mean()`: `NaN` until a full window exists. -/
def rollingMean (period : ℕ) (xs : List ℚ) : List (Option ℚ) :=
  (List.range xs.length).map fun i =>
    if i + 1 < period then none
    else some (((xs.drop (i + 1 - period)).take period).sum / (period : ℚ))

/-- `calculate_atr(df, period=14)`. -/
def calculate_atr (df : List Candle) : List (Option ℚ) :=
  rollingMean atr_period (true_range df)

/-! ## backtester.py — data model -/

/-- Class constant `Backtester.FEE_PCT = 0.1` (Bybit 0.1 % fee). -/
def FEE_PCT : ℚ := 1 / 10

/-- Constructor parameters of `Backtester`. -/
structure Backtester where
  initial_balance : ℚ
  position_size_pct : ℚ
  stop_loss_pct : ℚ
  take_profit_pct : ℚ
  deriving DecidableEq

/-- The `position` dict `{qty, entry_price, entry_amount, entry_idx}`. -/
structure Position where
  qty : ℚ
  entry_price : ℚ
  entry_amount : ℚ
  entry_idx : ℕ
  deriving DecidableEq

/-- One entry of `result.trades`.  The `end_of_data` trade dict carries no
`timestamp` key, hence `Option`. -/
structure Trade where
  action : String
  reason : String
  price : ℚ
  pnl : ℚ
  idx : ℕ
  timestamp : Option Int
  deriving DecidableEq

/-- Placeholder trade used as a `List.getD` default in closed statements. -/
def tDefault : Trade := ⟨"", "", 0, 0, 0, none⟩

/-- The fields of `BacktestResult` that `run` fills in. -/
structure BacktestResult where
  initial_balance : ℚ
  final_balance : ℚ
  trades : List Trade
  equity_curve : List ℚ
  deriving DecidableEq

/-- `Backtester._close_position`: realized P&L of closing `p` at `sell_price`
(`sell_value - fee - entry_amount` with `fee = sell_value * FEE_PCT / 100`). -/
def close_position (p : Position) (sell_price : ℚ) : ℚ :=
  let sell_value := p.qty * sell_price
  let fee := sell_value * FEE_PCT / 100
  sell_value - fee - p.entry_amount

/-- The per-candle values read by the main loop of `Backtester.run`:
`close`, `timestamp`, and the indicator columns at index `idx`.
(`current_bb_lower` is also read in the source but never used, and its
computation involves a square root, so it is not carried here.) -/
structure Row where
  idx : ℕ
  timestamp : Int
  price : ℚ
  rsi : Option ℚ
  ema20 : ℚ
  ema50 : ℚ
  macd_histogram : ℚ
  atr : Option ℚ
  deriving DecidableEq

/-- The mutable state of the `run` loop: `balance`, `position`, and the
accumulating `result.trades` / `result.equity_curve`. -/
structure BTState where
  balance : ℚ
  position : Option Position
  trades : List Trade
  equity_curve : List ℚ
  deriving DecidableEq

/-- Loop state on entry: `balance = self.initial_balance`, `position = None`. -/
def initState (bt : Backtester) : BTState :=
  { balance := bt.initial_balance, position := none, trades := [], equity_curve := [] }

/-- One iteration of `for i in range(200, len(df))` in `Backtester.run`. -/
def step (bt : Backtester) (s : BTState) (row : Row) : BTState :=
  match row.rsi, row.atr with
  | none, _ => { s with equity_curve := s.equity_curve ++ [s.balance] }
  | some _, none => { s with equity_curve := s.equity_curve ++ [s.balance] }
  | some current_rsi, some _ =>
    let price := row.price
    let equity := s.balance +
      (match s.position with | some p => p.qty * price | none => 0)
    let s1 := { s with equity_curve := s.equity_curve ++ [equity] }
    match s.position with
    | some p =>
      let loss_pct := (price - p.entry_price) / p.entry_price * 100
      if loss_pct ≤ -bt.stop_loss_pct then
        { s1 with
          balance := s1.balance + p.qty * price - p.qty * price * FEE_PCT / 100
          trades := s1.trades ++
            [⟨"sell", "stop_loss", price, close_position p price, row.idx, some row.timestamp⟩]
          position := none }
      else if bt.take_profit_pct ≤ loss_pct then
        { s1 with
          balance := s1.balance + p.qty * price - p.qty * price * FEE_PCT / 100
          trades := s1.trades ++
            [⟨"sell", "take_profit", price, close_position p price, row.idx, some row.timestamp⟩]
          position := none }
      else if 65 < current_rsi then
        { s1 with
          balance := s1.balance + p.qty * price - p.qty * price * FEE_PCT / 100
          trades := s1.trades ++
            [⟨"sell", "rsi_overbought", price, close_position p price, row.idx, some row.timestamp⟩]
          position := none }
      else s1
    | none =>
      if current_rsi < 35 ∧ row.ema50 < row.ema20 ∧ 0 < row.macd_histogram then
        let trade_amount := min (s1.balance * (bt.position_size_pct / 100)) (s1.balance - 1)
        if trade_amount < 1 then s1
        else
          let fee := trade_amount * FEE_PCT / 100
          let qty := (trade_amount - fee) / price
          { s1 with
            balance := s1.balance - trade_amount
            position := some ⟨qty, price, trade_amount, row.idx⟩
            trades := s1.trades ++ [⟨"buy", "signal", price, 0, row.idx, some row.timestamp⟩] }
      else s1

/-- The post-loop block of `Backtester.run`: if a position is still open, a
forced `end_of_data` exit at the final close price.  Note the source credits
`balance += position["qty"] * final_price` with no exit fee deducted, while
the recorded `pnl` (via `_close_position`) does deduct it. -/
def finalize (last_close : ℚ) (last_idx : ℕ) (s : BTState) : BTState :=
  match s.position with
  | none => s
  | some p =>
    { s with
      balance := s.balance + p.qty * last_close
      trades := s.trades ++
        [⟨"sell", "end_of_data", last_close, close_position p last_close, last_idx, none⟩]
      position := none }

/-- The indicator columns as read by the `run` loop at each index `i`:
`df["close"].iloc[i]`, `rsi.iloc[i]`, `ema20.iloc[i]`, `ema50.iloc[i]`,
`macd["histogram"].iloc[i]`, `atr.iloc[i]`. -/
def annotate (df : List Candle) : List Row :=
  let closes := df.map Candle.close
  let rsi := calculate_rsi closes
  let ema20 := calculate_ema closes 20
  let ema50 := calculate_ema closes 50
  let macd := calculate_macd closes
  let atr := calculate_atr df
  (List.range df.length).map fun i =>
    { idx := i
      timestamp := (df.getD i cDefault).timestamp
      price := closes.getD i 0
      rsi := rsi.getD i none
      ema20 := ema20.getD i 0
      ema50 := ema50.getD i 0
      macd_histogram := macd.histogram.getD i 0
      atr := atr.getD i none }

/-- `Backtester.run`: insufficient-data guard, main loop from index 200, and
the forced end-of-data exit (`df["close"].iloc[-1]` is index `len - 1`). -/
def run (bt : Backtester) (df : List Candle) : BacktestResult :=
  if df.isEmpty ∨ df.length < 200 then
    { initial_balance := bt.initial_balance, final_balance := bt.initial_balance
      trades := [], equity_curve := [] }
  else
    let rows := (annotate df).drop 200
    let s := rows.foldl (step bt) (initState bt)
    let s' := finalize (df.getD (df.length - 1) cDefault).close (df.length - 1) s
    { initial_balance := bt.initial_balance, final_balance := s'.balance
      trades := s'.trades, equity_curve := s'.equity_curve }

/-! ## backtester.py — BacktestResult.sharpe_ratio -/

/-- The per-step simple returns loop of `sharpe_ratio`:
`r_i = (equity[i] - equity[i-1]) / equity[i-1]`. -/
def stepReturns : List ℚ → List ℚ
  | [] => []
  | [_] => []
  | x :: y :: rest => (y - x) / x :: stepReturns (y :: rest)

/-- `np.mean` on a rational list. -/
def npMean (xs : List ℚ) : ℚ := xs.sum / (xs.length : ℚ)

/-- The population variance underlying `np.std` (default `ddof=0`). -/
def npVariance (xs : List ℚ) : ℚ :=
  ((xs.map fun x => (x - npMean xs) ^ 2).sum) / (xs.length : ℚ)

/-- `np.std(xs)` = square root of the population variance. -/
noncomputable def npStd (xs : List ℚ) : ℝ := Real.sqrt (npVariance xs)

/-- `BacktestResult.sharpe_ratio`.  The source's `std == 0` test is the
(equivalent) `variance == 0` test, since `std = sqrt(variance)` and the
variance is nonnegative.  `periods_per_year = 365 * 24 * 4` is hard-coded
(the comment in the source assumes 15-minute steps). -/
noncomputable def sharpe_ratio (equity_curve : List ℚ) : ℝ :=
  if equity_curve.length < 2 then 0
  else
    let returns := stepReturns equity_curve
    if returns = [] then 0
    else if npVariance returns = 0 then 0
    else ((npMean returns : ℝ) / npStd returns) * Real.sqrt (365 * 24 * 4)

/-! ## risk_manager.py — filter_by_confidence -/

/-- The fields of the recommendation dict that `filter_by_confidence` reads;
`none` models a missing key (`dict.get` default). -/
structure Recommendation where
  action : Option String
  confidence : Option ℚ
  deriving DecidableEq

/-- `RiskManager.filter_by_confidence`; `min_confidence` is
`config.MIN_CONFIDENCE`, read at call time. -/
def filter_by_confidence (min_confidence : ℚ) (r : Recommendation) : Bool :=
  if r.action = some "hold" then true
  else
    let confidence := r.confidence.getD 0
    if confidence < min_confidence then false else true

/-! ## Shared helper lemmas -/

/-- Evaluating a range-map list at an index. -/
theorem getD_range_map {α : Type} (n : ℕ) (f : ℕ → α) (d : α) (i : ℕ) :
    ((List.range n).map f).getD i d = if i < n then f i else d := by
  by_cases h : i < n
  · rw [List.getD_eq_getElem _ _ (by simpa using h)]
    simp [h]
  · rw [List.getD_eq_default _ _ (by simpa using Nat.le_of_not_lt h)]
    simp [h]

theorem ewmGo_length (alpha : ℚ) (xs : List ℚ) :
    ∀ s w, (ewmGo alpha s w xs).length = xs.length := by
  induction xs with
  | nil => intro s w; rfl
  | cons x rest ih => intro s w; simp [ewmGo, ih]

theorem ewmMean_length (alpha : ℚ) (xs : List ℚ) :
    (ewmMean alpha xs).length = xs.length := ewmGo_length alpha xs 0 0

theorem gains_length (closes : List ℚ) : (gains closes).length = closes.length := by
  simp [gains]

theorem losses_length (closes : List ℚ) : (losses closes).length = closes.length := by
  simp [losses]

theorem withMinPeriods_length (p : ℕ) (xs : List ℚ) :
    (withMinPeriods p xs).length = xs.length := by
  simp [withMinPeriods]

theorem avg_gain_length (closes : List ℚ) : (avg_gain closes).length = closes.length := by
  rw [avg_gain, withMinPeriods_length, ewmMean_length, gains_length]

theorem avg_loss_length (closes : List ℚ) : (avg_loss closes).length = closes.length := by
  rw [avg_loss, withMinPeriods_length, ewmMean_length, losses_length]

theorem calculate_rsi_length (closes : List ℚ) :
    (calculate_rsi closes).length = closes.length := by
  simp [calculate_rsi]

theorem annotate_length (df : List Candle) : (annotate df).length = df.length := by
  simp [annotate]

/-! ## C2 -/

/-- C2: for every candle series of length < 200 (including the empty series),
`run` returns zero trades, an (unchanged) empty equity curve, and
`final_balance = initial_balance`. -/
theorem run_short_series (bt : Backtester) (df : List Candle) (h : df.length < 200) :
    run bt df =
      { initial_balance := bt.initial_balance, final_balance := bt.initial_balance
        trades := [], equity_curve := [] } := by
  unfold run
  rw [if_pos (Or.inr h)]

/-- Witness for C2 at the empty series with the default constructor values
`Backtester(100, 5, 5, 3)`. -/
theorem run_short_series_witness :
    ([] : List Candle).length < 200 ∧
      run ⟨100, 5, 5, 3⟩ [] = ⟨100, 100, [], []⟩ :=
  ⟨by decide, run_short_series ⟨100, 5, 5, 3⟩ [] (by decide)⟩

/-! ## C6 -/

/-- C6: opening a position (buy-branch arithmetic of `run`:
`fee = amount * FEE_PCT / 100`, `qty = (amount - fee) / price`,
`entry_amount = amount`) and closing it at the same price yields strictly
negative realized P&L, for every positive price and entry amount; the fee
`FEE_PCT = 0.1` per cent is positive, so the two fees make the breakeven
round-trip unprofitable. -/
theorem round_trip_same_price_pnl_neg (amount price : ℚ) (j : ℕ)
    (hamt : 0 < amount) (hpr : 0 < price) :
    close_position ⟨(amount - amount * FEE_PCT / 100) / price, price, amount, j⟩ price < 0 := by
  unfold close_position FEE_PCT
  simp only
  have hp : price ≠ 0 := ne_of_gt hpr
  have hqv : (amount - amount * ((1:ℚ)/10) / 100) / price * price = amount * (999 / 1000) := by
    field_simp
    ring
  rw [hqv]
  nlinarith

/-- Witness for C6: a 5 USDT entry at price 100. -/
theorem round_trip_same_price_pnl_neg_witness :
    (0:ℚ) < 5 ∧ (0:ℚ) < 100 ∧
      close_position ⟨(5 - 5 * FEE_PCT / 100) / 100, 100, 5, 0⟩ 100 < 0 :=
  ⟨by norm_num, by norm_num,
    round_trip_same_price_pnl_neg 5 100 0 (by norm_num) (by norm_num)⟩

/-! ## C10 -/

/-- C10: `filter_by_confidence` accepts every "hold" recommendation; a
non-"hold" recommendation passes iff its confidence (missing = 0) reaches
`min_confidence`; hence a non-"hold" recommendation without a confidence
score is rejected whenever `min_confidence > 0`. -/
theorem filter_by_confidence_spec (min_confidence : ℚ) (r : Recommendation) :
    (filter_by_confidence min_confidence r = true ↔
      (r.action = some "hold" ∨ min_confidence ≤ r.confidence.getD 0)) ∧
    (r.action ≠ some "hold" → r.confidence = none → 0 < min_confidence →
      filter_by_confidence min_confidence r = false) := by
  constructor
  · by_cases h1 : r.action = some "hold"
    · simp [filter_by_confidence, h1]
    · by_cases h2 : r.confidence.getD 0 < min_confidence
      · simp [filter_by_confidence, h1, h2, not_le.mpr h2]
      · simp [filter_by_confidence, h1, h2, le_of_not_lt h2]
  · intro ha hc hm
    simp [filter_by_confidence, ha, hc, hm]

/-- Witness for C10: a "buy" recommendation with no confidence score is
rejected at the default threshold `MIN_CONFIDENCE = 60`. -/
theorem filter_by_confidence_spec_witness :
    (Recommendation.mk (some "buy") none).action ≠ some "hold" ∧
      filter_by_confidence 60 ⟨some "buy", none⟩ = false :=
  ⟨by decide, (filter_by_confidence_spec 60 ⟨some "buy", none⟩).2 (by decide) rfl (by norm_num)⟩

/-! ## C3 -/

/-- The state an in-loop close of position `p` produces (for any of the
three reasons): equity point appended, cash credited
`qty·price - qty·price·FEE_PCT/100`, a sell `Trade` recorded with the
`_close_position` P&L, position destroyed. -/
def sellState (s : BTState) (row : Row) (p : Position) (reason : String) : BTState :=
  { balance := s.balance + p.qty * row.price - p.qty * row.price * FEE_PCT / 100
    position := none
    trades := s.trades ++
      [⟨"sell", reason, row.price, close_position p row.price, row.idx, some row.timestamp⟩]
    equity_curve := s.equity_curve ++ [s.balance + p.qty * row.price] }

/-- C3: with a position open and RSI/ATR defined, exit conditions are
checked as stop-loss, then take-profit, then RSI > 65, first match winning;
in particular a price drop from entry of at least `stop_loss_pct` closes
with reason "stop_loss" for every RSI value `r`, including `r > 65`. -/
theorem exit_priority_order (bt : Backtester) (s : BTState) (row : Row) (p : Position)
    (r a : ℚ) (hp : s.position = some p) (hr : row.rsi = some r) (ha : row.atr = some a) :
    ((row.price - p.entry_price) / p.entry_price * 100 ≤ -bt.stop_loss_pct →
      step bt s row = sellState s row p "stop_loss") ∧
    (¬ ((row.price - p.entry_price) / p.entry_price * 100 ≤ -bt.stop_loss_pct) →
      bt.take_profit_pct ≤ (row.price - p.entry_price) / p.entry_price * 100 →
      step bt s row = sellState s row p "take_profit") ∧
    (¬ ((row.price - p.entry_price) / p.entry_price * 100 ≤ -bt.stop_loss_pct) →
      ¬ (bt.take_profit_pct ≤ (row.price - p.entry_price) / p.entry_price * 100) →
      65 < r →
      step bt s row = sellState s row p "rsi_overbought") := by
  refine ⟨fun h1 => ?_, fun h1 h2 => ?_, fun h1 h2 h3 => ?_⟩
  · simp only [step, hr, ha, hp]
    rw [if_pos h1]
    simp [sellState]
  · simp only [step, hr, ha, hp]
    rw [if_neg h1, if_pos h2]
    simp [sellState]
  · simp only [step, hr, ha, hp]
    rw [if_neg h1, if_neg h2, if_pos h3]
    simp [sellState]

/-- Witness for C3: entry at 100, price 94 (a 6 % drop, `stop_loss_pct = 5`)
with simultaneous RSI = 70 > 65 still closes with reason "stop_loss". -/
theorem exit_priority_order_witness :
    (BTState.mk 95 (some ⟨1, 100, 5, 0⟩) [] []).position = some ⟨1, 100, 5, 0⟩ ∧
    (Row.mk 210 0 94 (some 70) 1 1 1 (some 1)).rsi = some 70 ∧
    ((94 - 100 : ℚ) / 100 * 100 ≤ -(5 : ℚ)) ∧ (65 : ℚ) < 70 ∧
    step ⟨100, 5, 5, 3⟩ ⟨95, some ⟨1, 100, 5, 0⟩, [], []⟩ ⟨210, 0, 94, some 70, 1, 1, 1, some 1⟩ =
      sellState ⟨95, some ⟨1, 100, 5, 0⟩, [], []⟩ ⟨210, 0, 94, some 70, 1, 1, 1, some 1⟩
        ⟨1, 100, 5, 0⟩ "stop_loss" :=
  ⟨rfl, rfl, by norm_num, by norm_num,
    (exit_priority_order ⟨100, 5, 5, 3⟩ ⟨95, some ⟨1, 100, 5, 0⟩, [], []⟩
      ⟨210, 0, 94, some 70, 1, 1, 1, some 1⟩ ⟨1, 100, 5, 0⟩ 70 1 rfl rfl rfl).1
      (by norm_num)⟩

/-! ## C1 -/

/-- Concrete backtester for the end-of-data scenario (constructor defaults
`Backtester(100, 5, 5, 3)`). -/
def c1_bt : Backtester := ⟨100, 5, 5, 3⟩

/-- Two loop rows: a buy signal at index 200 (price 100, RSI 30,
EMA20 > EMA50, MACD histogram > 0), then no exit signal at index 201, so
the position survives to end-of-data. -/
def c1_rows : List Row :=
  [⟨200, 0, 100, some 30, 2, 1, 1, some 1⟩,
   ⟨201, 1, 100, some 50, 1, 2, 0, some 1⟩]

/-- Loop state at end-of-data for the C1 scenario. -/
def c1_state : BTState := c1_rows.foldl (step c1_bt) (initState c1_bt)

/-- Evaluation of the two loop iterations of the C1 scenario: the buy at
index 200 debits `trade_amount = 5`, `qty = (5 - 5·0.001)/100 = 999/20000`;
index 201 triggers no exit, so the position survives the loop. -/
theorem c1_state_eval :
    c1_state = ⟨95, some ⟨999/20000, 100, 5, 200⟩,
      [⟨"buy", "signal", 100, 0, 200, some 0⟩], [100, 19999/200]⟩ := by
  simp only [c1_state, c1_rows, List.foldl_cons, List.foldl_nil, c1_bt, initState]
  norm_num [step, min_def, FEE_PCT]

/-- C1: at the forced end-of-data exit the code credits cash with the full
`sell_value = qty · price` and NOT with `sell_value - exit_fee` as the claim
states for every close, even though the recorded trade's `pnl` does deduct
the exit fee (`sell_value - exit_fee - entry_amount`): the cash credit and
the recorded P&L are inconsistent on this path. -/
theorem end_of_data_credit_omits_fee :
    c1_state.position = some ⟨999/20000, 100, 5, 200⟩ ∧
    c1_state.balance = 95 ∧
    (finalize 100 201 c1_state).balance = c1_state.balance + (999/20000) * 100 ∧
    (finalize 100 201 c1_state).balance ≠
      c1_state.balance + ((999/20000) * 100 - (999/20000) * 100 * FEE_PCT / 100) ∧
    ((finalize 100 201 c1_state).trades.getLastD tDefault).pnl =
      (999/20000) * 100 - (999/20000) * 100 * FEE_PCT / 100 - 5 ∧
    ((finalize 100 201 c1_state).trades.getLastD tDefault).reason = "end_of_data" := by
  rw [c1_state_eval]
  norm_num [finalize, close_position, FEE_PCT, tDefault]

/-! ## C5 -/

theorem stepReturns_length (xs : List ℚ) : (stepReturns xs).length = xs.length - 1 := by
  induction xs with
  | nil => rfl
  | cons x tail ih =>
    cases tail with
    | nil => rfl
    | cons y rest => simpa [stepReturns] using ih

theorem stepReturns_getD (xs : List ℚ) :
    ∀ i, i + 1 < xs.length →
      (stepReturns xs).getD i 0 = (xs.getD (i + 1) 0 - xs.getD i 0) / xs.getD i 0 := by
  induction xs with
  | nil => intro i h; simp at h
  | cons x tail ih =>
    cases tail with
    | nil => intro i h; simp at h
    | cons y rest =>
      intro i h
      match i with
      | 0 => simp [stepReturns]
      | n + 1 =>
        simp only [stepReturns, List.getD_cons_succ]
        exact ih n (by simpa using h)

/-- C5 (amended): `sharpe_ratio` returns 0 for curves with fewer than two
points or zero return variance; otherwise it is
`mean(r)/stdev(r) · sqrt(periods_per_year)` with the hard-coded
`periods_per_year = 365·24·4` (15-minute annualization), where the returns
are the per-step simple returns `r_i = (e_{i+1} - e_i)/e_i`. -/
theorem sharpe_ratio_spec (curve : List ℚ) :
    (curve.length < 2 → sharpe_ratio curve = 0) ∧
    (npVariance (stepReturns curve) = 0 → sharpe_ratio curve = 0) ∧
    (2 ≤ curve.length → npVariance (stepReturns curve) ≠ 0 →
      sharpe_ratio curve =
        ((npMean (stepReturns curve) : ℝ) / npStd (stepReturns curve)) *
          Real.sqrt (365 * 24 * 4)) ∧
    (∀ i, i + 1 < curve.length →
      (stepReturns curve).getD i 0 =
        (curve.getD (i + 1) 0 - curve.getD i 0) / curve.getD i 0) := by
  refine ⟨fun h => ?_, fun h => ?_, fun hlen hvar => ?_, stepReturns_getD curve⟩
  · simp only [sharpe_ratio]
    rw [if_pos h]
  · simp only [sharpe_ratio]
    split_ifs <;> rfl
  · have hne : stepReturns curve ≠ [] := by
      have : 0 < (stepReturns curve).length := by
        rw [stepReturns_length]; omega
      exact List.ne_nil_of_length_pos this
    simp only [sharpe_ratio]
    rw [if_neg (by omega), if_neg hne, if_neg hvar]

/-- Witness for C5's amended theorem at the curve `[1, 2, 1]`
(returns `[1, -1/2]`, mean `1/4`, variance `9/16`). -/
theorem sharpe_ratio_spec_witness :
    2 ≤ ([1, 2, 1] : List ℚ).length ∧
    npVariance (stepReturns [1, 2, 1]) ≠ 0 ∧
    sharpe_ratio [1, 2, 1] =
      ((npMean (stepReturns [1, 2, 1]) : ℝ) / npStd (stepReturns [1, 2, 1])) *
        Real.sqrt (365 * 24 * 4) :=
  ⟨by norm_num, by norm_num [stepReturns, npVariance, npMean],
    (sharpe_ratio_spec [1, 2, 1]).2.2.1 (by norm_num)
      (by norm_num [stepReturns, npVariance, npMean])⟩

/-- Counterexample to C5 as stated: at the equity curve `[1, 2, 1]` the
program's Sharpe ratio (annualized with the hard-coded `365·24·4`) differs
from the claimed `mean/stdev · sqrt(365·24·12)` (5-minute annualization):
the code does not derive `periods_per_year` from the candle interval. -/
theorem sharpe_ratio_not_5min_annualized :
    sharpe_ratio [1, 2, 1] ≠
      ((npMean (stepReturns [1, 2, 1]) : ℝ) / npStd (stepReturns [1, 2, 1])) *
        Real.sqrt (365 * 24 * 12) := by
  have hret : stepReturns [(1 : ℚ), 2, 1] = [1, -1/2] := by norm_num [stepReturns]
  have hmean : npMean [(1 : ℚ), -1/2] = 1/4 := by norm_num [npMean]
  have hvar : npVariance [(1 : ℚ), -1/2] = 9/16 := by norm_num [npVariance, npMean]
  have hstd : npStd [(1 : ℚ), -1/2] = 3/4 := by
    rw [npStd, hvar, show (((9 : ℚ)/16 : ℚ) : ℝ) = (3/4)^2 by norm_num]
    exact Real.sqrt_sq (by norm_num)
  have hrun : sharpe_ratio [1, 2, 1] = (1/3 : ℝ) * Real.sqrt (365 * 24 * 4) := by
    simp only [sharpe_ratio]
    rw [if_neg (by norm_num), if_neg (by rw [hret]; simp), if_neg (by rw [hret, hvar]; norm_num)]
    rw [hret, hmean, hstd]
    norm_num
  have hclaim : ((npMean (stepReturns [(1 : ℚ), 2, 1]) : ℝ) / npStd (stepReturns [1, 2, 1])) *
      Real.sqrt (365 * 24 * 12) = (1/3 : ℝ) * Real.sqrt (365 * 24 * 12) := by
    rw [hret, hmean, hstd]
    norm_num
  rw [hrun, hclaim]
  intro heq
  have hsq := mul_left_cancel₀ (by norm_num : (1/3 : ℝ) ≠ 0) heq
  have hlt : Real.sqrt (365 * 24 * 4) < Real.sqrt (365 * 24 * 12) :=
    Real.sqrt_lt_sqrt (by norm_num) (by norm_num)
  exact absurd hsq (ne_of_lt hlt)

/-! ## C4 -/

/-- The equity point the loop appends for `row` in state `s`: cash plus
mark-to-market (`qty · close`) of any open position when RSI and ATR are
defined at the candle; bare cash when either is `NaN` (the `pd.isna`
branch appends `balance` and skips the rest of the iteration). -/
def pointOf (s : BTState) (row : Row) : ℚ :=
  match row.rsi, row.atr with
  | some _, some _ =>
    s.balance + (match s.position with | some p => p.qty * row.price | none => 0)
  | _, _ => s.balance

/-- The equity points appended while folding `step` over `rows` from `s`. -/
def pointsOf (bt : Backtester) : BTState → List Row → List ℚ
  | _, [] => []
  | s, r :: rs => pointOf s r :: pointsOf bt (step bt s r) rs

theorem step_equity_curve (bt : Backtester) (s : BTState) (row : Row) :
    (step bt s row).equity_curve = s.equity_curve ++ [pointOf s row] := by
  unfold step pointOf
  rcases hr : row.rsi with _ | r
  · rfl
  · rcases ha : row.atr with _ | a
    · rfl
    · rcases hp : s.position with _ | p
      · dsimp only
        split_ifs <;> rfl
      · dsimp only
        split_ifs <;> rfl

theorem foldl_equity_curve (bt : Backtester) :
    ∀ (rows : List Row) (s : BTState),
      (rows.foldl (step bt) s).equity_curve = s.equity_curve ++ pointsOf bt s rows := by
  intro rows
  induction rows with
  | nil => intro s; simp [pointsOf]
  | cons r rs ih =>
    intro s
    simp only [List.foldl_cons, pointsOf]
    rw [ih, step_equity_curve]
    simp

theorem pointsOf_length (bt : Backtester) :
    ∀ (rows : List Row) (s : BTState), (pointsOf bt s rows).length = rows.length := by
  intro rows
  induction rows with
  | nil => intro s; rfl
  | cons r rs ih => intro s; simp [pointsOf, ih]

theorem finalize_equity_curve (c : ℚ) (i : ℕ) (s : BTState) :
    (finalize c i s).equity_curve = s.equity_curve := by
  unfold finalize
  rcases hp : s.position with _ | p <;> rfl

/-- For a long-enough series, the equity curve of `run` is exactly the
points appended by the loop over the rows from index 200 on. -/
theorem run_equity_curve (bt : Backtester) (df : List Candle) (h : 200 ≤ df.length) :
    (run bt df).equity_curve = pointsOf bt (initState bt) ((annotate df).drop 200) := by
  have hne : ¬ (df.isEmpty ∨ df.length < 200) := by
    rintro (he | hl)
    · rw [List.isEmpty_iff] at he
      subst he
      simp at h
    · omega
  unfold run
  rw [if_neg hne]
  dsimp only
  rw [finalize_equity_curve, foldl_equity_curve]
  simp [initState]

/-- C4 (amended): for series of length ≥ 200 the equity curve has one point
per candle index in `[200, len)` — `len - 200` points in all; the warm-up
candles 0..199 contribute no points.  Each point is cash plus mark-to-market
of any open position, except that candles with undefined RSI/ATR record
cash only (see `pointOf`). -/
theorem equity_curve_one_point_per_loop_candle (bt : Backtester) (df : List Candle)
    (h : 200 ≤ df.length) :
    (run bt df).equity_curve = pointsOf bt (initState bt) ((annotate df).drop 200) ∧
    (run bt df).equity_curve.length = df.length - 200 := by
  refine ⟨run_equity_curve bt df h, ?_⟩
  rw [run_equity_curve bt df h, pointsOf_length, List.length_drop, annotate_length]

/-- All-ones candle used for concrete series. -/
def c4_candle : Candle := ⟨0, 1, 1, 1, 1, 1⟩

/-- Witness for C4's amended theorem at a 201-candle series. -/
theorem equity_curve_one_point_witness :
    200 ≤ (List.replicate 201 c4_candle).length ∧
    (run ⟨100, 5, 5, 3⟩ (List.replicate 201 c4_candle)).equity_curve.length =
      (List.replicate 201 c4_candle).length - 200 :=
  ⟨by rw [List.length_replicate]; omega,
    (equity_curve_one_point_per_loop_candle ⟨100, 5, 5, 3⟩ _
      (by rw [List.length_replicate]; omega)).2⟩

/-- Counterexample to C4 as stated: a 200-candle series is processed
(`len ≥ 200`), yet its equity curve is empty — the 200 warm-up candles are
skipped entirely (`for i in range(200, len(df))`), not recorded as
cash-only equity, so the curve does not contain one point per processed
candle. -/
theorem warmup_candles_have_no_equity_points :
    (run ⟨100, 5, 5, 3⟩ (List.replicate 200 cDefault)).equity_curve = [] ∧
    (List.replicate 200 cDefault).length = 200 ∧
    (run ⟨100, 5, 5, 3⟩ (List.replicate 200 cDefault)).equity_curve.length ≠
      (List.replicate 200 cDefault).length := by
  have h200 : 200 ≤ (List.replicate 200 cDefault).length := by
    rw [List.length_replicate]
  have hcurve := run_equity_curve ⟨100, 5, 5, 3⟩ (List.replicate 200 cDefault) h200
  have hdrop : (annotate (List.replicate 200 cDefault)).drop 200 = [] := by
    apply List.drop_eq_nil_of_le
    rw [annotate_length, List.length_replicate]
  refine ⟨?_, by rw [List.length_replicate], ?_⟩
  · rw [hcurve, hdrop]
    rfl
  · rw [hcurve, hdrop]
    simp only [pointsOf, List.length_nil, List.length_replicate]
    omega

/-! ## C9 -/

/-- Number of recorded trades whose `action` field equals `a`. -/
def countAct (a : String) (ts : List Trade) : ℕ :=
  (ts.filter fun t => t.action = a).length

/-- `altB l expectBuy`: the action list `l` strictly alternates between
"buy" and "sell", starting with "buy" when `expectBuy` is true. -/
def altB : List String → Bool → Bool
  | [], _ => true
  | a :: rest, expectBuy =>
    (a == (if expectBuy then "buy" else "sell")) && altB rest (!expectBuy)

/-- The expected-action flag after consuming `n` alternating entries. -/
def altFlag : Bool → ℕ → Bool
  | b, 0 => b
  | b, n + 1 => altFlag (!b) n

theorem altFlag_succ_eq (n : ℕ) : ∀ b, altFlag b (n + 1) = !(altFlag b n) := by
  induction n with
  | zero => intro b; rfl
  | succ m ih =>
    intro b
    show altFlag (!b) (m + 1) = !(altFlag (!b) m)
    exact ih (!b)

theorem altB_append_one (x : String) :
    ∀ (l : List String) (b : Bool),
      altB (l ++ [x]) b =
        (altB l b && (x == (if altFlag b l.length then "buy" else "sell"))) := by
  intro l
  induction l with
  | nil => intro b; simp [altB, altFlag]
  | cons a rest ih =>
    intro b
    show ((a == if b then "buy" else "sell") && altB (rest ++ [x]) (!b)) = _
    rw [ih (!b), ← Bool.and_assoc]
    rfl

theorem countAct_append (a : String) (ts : List Trade) (t : Trade) :
    countAct a (ts ++ [t]) = countAct a ts + (if t.action = a then 1 else 0) := by
  simp only [countAct, List.filter_append]
  rw [List.length_append]
  congr 1
  split_ifs with h <;> simp [h]

/-- 1 when a position is open, 0 otherwise. -/
def posCount : Option Position → ℕ
  | none => 0
  | some _ => 1

/-- Loop invariant for C9, over the trades list and the open position:
the actions alternate from "buy"; the parity flag matches whether a
position is open; buys exceed sells by exactly the number of open
positions (0 or 1). -/
def TradesInv (ts : List Trade) (pos : Option Position) : Prop :=
  altB (ts.map Trade.action) true = true ∧
  altFlag true (ts.map Trade.action).length = !pos.isSome ∧
  countAct "buy" ts = countAct "sell" ts + posCount pos

theorem tradesInv_sell (ts : List Trade) (p : Position) (tr : Trade)
    (hact : tr.action = "sell") (h : TradesInv ts (some p)) :
    TradesInv (ts ++ [tr]) none := by
  obtain ⟨h1, h2, h3⟩ := h
  simp only [Option.isSome_some, Bool.not_true] at h2
  simp only [posCount] at h3
  refine ⟨?_, ?_, ?_⟩
  · rw [List.map_append, List.map_cons, List.map_nil, altB_append_one, hact, h2]
    simp [h1]
  · rw [List.map_append, List.length_append, List.map_cons, List.map_nil, List.length_cons,
      List.length_nil, Nat.zero_add, altFlag_succ_eq, h2]
    rfl
  · rw [countAct_append, countAct_append, hact,
      if_neg (by decide : ¬ ("sell" : String) = "buy"),
      if_pos (rfl : ("sell" : String) = "sell")]
    simp only [posCount]
    omega

theorem tradesInv_buy (ts : List Trade) (tr : Trade) (p : Position)
    (hact : tr.action = "buy") (h : TradesInv ts none) :
    TradesInv (ts ++ [tr]) (some p) := by
  obtain ⟨h1, h2, h3⟩ := h
  simp only [Option.isSome_none, Bool.not_false] at h2
  simp only [posCount] at h3
  refine ⟨?_, ?_, ?_⟩
  · rw [List.map_append, List.map_cons, List.map_nil, altB_append_one, hact, h2]
    simp [h1]
  · rw [List.map_append, List.length_append, List.map_cons, List.map_nil, List.length_cons,
      List.length_nil, Nat.zero_add, altFlag_succ_eq, h2]
    rfl
  · rw [countAct_append, countAct_append, hact,
      if_pos (rfl : ("buy" : String) = "buy"),
      if_neg (by decide : ¬ ("buy" : String) = "sell")]
    simp only [posCount]
    omega

theorem step_tradesInv (bt : Backtester) (s : BTState) (row : Row)
    (h : TradesInv s.trades s.position) :
    TradesInv (step bt s row).trades (step bt s row).position := by
  unfold step
  rcases hr : row.rsi with _ | r
  · exact h
  rcases ha : row.atr with _ | a
  · exact h
  rcases hp : s.position with _ | p
  · rw [hp] at h
    dsimp only
    split_ifs with hc hlt
    · exact h
    · exact tradesInv_buy s.trades _ _ rfl h
    · exact h
  · rw [hp] at h
    dsimp only
    split_ifs with h1 h2 h3
    · exact tradesInv_sell s.trades p _ rfl h
    · exact tradesInv_sell s.trades p _ rfl h
    · exact tradesInv_sell s.trades p _ rfl h
    · exact h

theorem foldl_tradesInv (bt : Backtester) :
    ∀ (rows : List Row) (s : BTState), TradesInv s.trades s.position →
      TradesInv (rows.foldl (step bt) s).trades (rows.foldl (step bt) s).position := by
  intro rows
  induction rows with
  | nil => intro s h; exact h
  | cons r rs ih => intro s h; exact ih _ (step_tradesInv bt s r h)

theorem finalize_tradesInv (c : ℚ) (i : ℕ) (s : BTState)
    (h : TradesInv s.trades s.position) :
    TradesInv (finalize c i s).trades none := by
  unfold finalize
  rcases hp : s.position with _ | p
  · rw [hp] at h
    exact h
  · rw [hp] at h
    exact tradesInv_sell s.trades p _ rfl h

/-- C9: in every completed `run`, trade actions strictly alternate starting
with "buy", and the number of sells equals the number of buys (every
position opened is closed by the end of the run, the last one by the forced
`end_of_data` exit if still open). -/
theorem trades_alternate_and_all_positions_closed (bt : Backtester) (df : List Candle) :
    altB ((run bt df).trades.map Trade.action) true = true ∧
    countAct "buy" (run bt df).trades = countAct "sell" (run bt df).trades := by
  unfold run
  split_ifs with h
  · exact ⟨rfl, rfl⟩
  · dsimp only
    have h0 : TradesInv (initState bt).trades (initState bt).position := ⟨rfl, rfl, rfl⟩
    have h1 := foldl_tradesInv bt ((annotate df).drop 200) (initState bt) h0
    have h2 := finalize_tradesInv (df.getD (df.length - 1) cDefault).close (df.length - 1) _ h1
    obtain ⟨a1, a2, a3⟩ := h2
    refine ⟨a1, ?_⟩
    simpa [posCount] using a3
  

/-! ## C7 -/

/-- Loop invariant for C7: cash is strictly positive and any open position
holds a nonnegative quantity. -/
def BalInv (s : BTState) : Prop :=
  0 < s.balance ∧ ∀ p : Position, s.position = some p → 0 ≤ p.qty

theorem step_balInv (bt : Backtester) (s : BTState) (row : Row)
    (hprice : 0 < row.price) (h : BalInv s) : BalInv (step bt s row) := by
  obtain ⟨hb, hq⟩ := h
  unfold step
  rcases hr : row.rsi with _ | r
  · exact ⟨hb, hq⟩
  rcases ha : row.atr with _ | a
  · exact ⟨hb, hq⟩
  rcases hp : s.position with _ | p
  · dsimp only
    split_ifs with hc hlt
    · exact ⟨hb, fun q hq' => Option.noConfusion hq'⟩
    · have hta : min (s.balance * (bt.position_size_pct / 100)) (s.balance - 1) ≤
          s.balance - 1 := min_le_right _ _
      have h1 : (1 : ℚ) ≤ min (s.balance * (bt.position_size_pct / 100)) (s.balance - 1) :=
        not_lt.mp hlt
      refine ⟨by linarith, ?_⟩
      intro q hq'
      injection hq' with hq''
      subst hq''
      have h2 : 0 ≤ min (s.balance * (bt.position_size_pct / 100)) (s.balance - 1) -
          min (s.balance * (bt.position_size_pct / 100)) (s.balance - 1) * FEE_PCT / 100 := by
        rw [FEE_PCT]
        linarith
      exact div_nonneg h2 (le_of_lt hprice)
    · exact ⟨hb, fun q hq' => Option.noConfusion hq'⟩
  · dsimp only
    have hqp : 0 ≤ p.qty := hq p hp
    have ht : 0 ≤ p.qty * row.price := mul_nonneg hqp (le_of_lt hprice)
    split_ifs with h1 h2 h3
    · refine ⟨?_, fun q hq' => Option.noConfusion hq'⟩
      simp only [FEE_PCT]
      linarith
    · refine ⟨?_, fun q hq' => Option.noConfusion hq'⟩
      simp only [FEE_PCT]
      linarith
    · refine ⟨?_, fun q hq' => Option.noConfusion hq'⟩
      simp only [FEE_PCT]
      linarith
    · refine ⟨hb, ?_⟩
      intro q hq'
      injection hq' with hq''
      subst hq''
      exact hqp

theorem foldl_balInv (bt : Backtester) :
    ∀ (rows : List Row) (s : BTState), (∀ r ∈ rows, 0 < r.price) → BalInv s →
      BalInv (rows.foldl (step bt) s) := by
  intro rows
  induction rows with
  | nil => intro s _ h; exact h
  | cons r rs ih =>
    intro s hpr h
    exact ih _ (fun r' hr' => hpr r' (List.mem_cons_of_mem r hr'))
      (step_balInv bt s r (hpr r (List.mem_cons_self r rs)) h)

theorem annotate_price_pos (df : List Candle) (hdf : ∀ c ∈ df, 0 < c.close) :
    ∀ r ∈ annotate df, 0 < r.price := by
  intro r hr
  simp only [annotate, List.mem_map, List.mem_range] at hr
  obtain ⟨i, hi, rfl⟩ := hr
  show 0 < (df.map Candle.close).getD i 0
  have hlen : i < (df.map Candle.close).length := by simpa using hi
  rw [List.getD_eq_getElem _ _ hlen, List.getElem_map]
  exact hdf _ (List.getElem_mem _)

/-- C7: throughout a run with positive initial balance and positive close
prices, the cash balance is never negative — after any number `k` of loop
iterations, and in the final result.  Opens debit
`min(balance·pct/100, balance - 1)` and are skipped when that is below 1,
so cash stays positive; closes only credit. -/
theorem cash_balance_never_negative (bt : Backtester) (df : List Candle) (k : ℕ)
    (hb : 0 < bt.initial_balance) (hdf : ∀ c ∈ df, 0 < c.close) :
    0 ≤ ((((annotate df).drop 200).take k).foldl (step bt) (initState bt)).balance ∧
    0 ≤ (run bt df).final_balance := by
  have hinv0 : BalInv (initState bt) := ⟨hb, fun p hp => Option.noConfusion hp⟩
  have hrows : ∀ r ∈ ((annotate df).drop 200).take k, 0 < r.price := fun r hr =>
    annotate_price_pos df hdf r (List.drop_subset _ _ (List.take_subset _ _ hr))
  have h1 := foldl_balInv bt _ _ hrows hinv0
  refine ⟨le_of_lt h1.1, ?_⟩
  unfold run
  split_ifs with h
  · exact le_of_lt hb
  · dsimp only
    have hrows2 : ∀ r ∈ (annotate df).drop 200, 0 < r.price := fun r hr =>
      annotate_price_pos df hdf r (List.drop_subset _ _ hr)
    obtain ⟨hb2, hq2⟩ := foldl_balInv bt ((annotate df).drop 200) (initState bt) hrows2 hinv0
    unfold finalize
    rcases hp : (List.foldl (step bt) (initState bt) ((annotate df).drop 200)).position
      with _ | p
    · exact le_of_lt hb2
    · have hqty := hq2 p hp
      have hne : df ≠ [] := by
        intro he
        subst he
        exact h (Or.inl rfl)
      have hlt : df.length - 1 < df.length := by
        have : 0 < df.length := List.length_pos.mpr hne
        omega
      have hclose : 0 ≤ (df.getD (df.length - 1) cDefault).close := by
        rw [List.getD_eq_getElem _ _ hlt]
        exact le_of_lt (hdf _ (List.getElem_mem _))
      have hcr : 0 ≤ p.qty * (df.getD (df.length - 1) cDefault).close :=
        mul_nonneg hqty hclose
      dsimp only
      linarith

/-- Witness for C7 at a 200-candle all-ones series with `k = 3` loop steps. -/
theorem cash_balance_never_negative_witness :
    (0 : ℚ) < 100 ∧
    0 ≤ ((((annotate (List.replicate 200 c4_candle)).drop 200).take 3).foldl
      (step ⟨100, 5, 5, 3⟩) (initState ⟨100, 5, 5, 3⟩)).balance ∧
    0 ≤ (run ⟨100, 5, 5, 3⟩ (List.replicate 200 c4_candle)).final_balance :=
  ⟨by norm_num,
    (cash_balance_never_negative ⟨100, 5, 5, 3⟩ (List.replicate 200 c4_candle) 3
      (by norm_num)
      (fun c hc => by rw [List.eq_of_mem_replicate hc]; norm_num [c4_candle])).1,
    (cash_balance_never_negative ⟨100, 5, 5, 3⟩ (List.replicate 200 c4_candle) 3
      (by norm_num)
      (fun c hc => by rw [List.eq_of_mem_replicate hc]; norm_num [c4_candle])).2⟩

/-! ## C8 -/

theorem gains_nonneg (closes : List ℚ) : ∀ x ∈ gains closes, 0 ≤ x := by
  intro x hx
  simp only [gains, List.mem_map, List.mem_range] at hx
  obtain ⟨i, _, rfl⟩ := hx
  split_ifs with h1 h2
  · exact le_refl 0
  · exact le_of_lt h2
  · exact le_refl 0

theorem losses_nonneg (closes : List ℚ) : ∀ x ∈ losses closes, 0 ≤ x := by
  intro x hx
  simp only [losses, List.mem_map, List.mem_range] at hx
  obtain ⟨i, _, rfl⟩ := hx
  split_ifs with h1 h2
  · exact le_refl 0
  · linarith
  · exact le_refl 0

theorem ewmGo_nonneg (alpha : ℚ) (halpha : 0 ≤ 1 - alpha) :
    ∀ (xs : List ℚ) (s w : ℚ), 0 ≤ s → 0 ≤ w → (∀ x ∈ xs, 0 ≤ x) →
      ∀ v ∈ ewmGo alpha s w xs, 0 ≤ v := by
  intro xs
  induction xs with
  | nil => intro s w _ _ _ v hv; simp [ewmGo] at hv
  | cons x rest ih =>
    intro s w hs hw hxs v hv
    have hx : 0 ≤ x := hxs x (List.mem_cons_self x rest)
    have hs' : 0 ≤ (1 - alpha) * s + x := by positivity
    have hw' : 0 ≤ (1 - alpha) * w + 1 := by positivity
    simp only [ewmGo, List.mem_cons] at hv
    rcases hv with rfl | hv
    · exact div_nonneg hs' hw'
    · exact ih _ _ hs' hw' (fun y hy => hxs y (List.mem_cons_of_mem x hy)) v hv

theorem avg_gain_getD_nonneg (closes : List ℚ) (i : ℕ) (g : ℚ)
    (h : (avg_gain closes).getD i none = some g) : 0 ≤ g := by
  rw [avg_gain, withMinPeriods] at h
  simp only [getD_range_map] at h
  by_cases h1 : i < (ewmMean (1 / (rsi_period : ℚ)) (gains closes)).length
  · rw [if_pos h1] at h
    by_cases h2 : i + 1 < rsi_period
    · rw [if_pos h2] at h
      exact Option.noConfusion h
    · rw [if_neg h2] at h
      injection h with h'
      subst h'
      rw [List.getD_eq_getElem _ _ h1]
      refine ewmGo_nonneg _ ?_ _ 0 0 le_rfl le_rfl (gains_nonneg closes) _
        (List.getElem_mem _)
      rw [rsi_period]
      norm_num
  · rw [if_neg h1] at h
    exact Option.noConfusion h

theorem avg_loss_getD_nonneg (closes : List ℚ) (i : ℕ) (l : ℚ)
    (h : (avg_loss closes).getD i none = some l) : 0 ≤ l := by
  rw [avg_loss, withMinPeriods] at h
  simp only [getD_range_map] at h
  by_cases h1 : i < (ewmMean (1 / (rsi_period : ℚ)) (losses closes)).length
  · rw [if_pos h1] at h
    by_cases h2 : i + 1 < rsi_period
    · rw [if_pos h2] at h
      exact Option.noConfusion h
    · rw [if_neg h2] at h
      injection h with h'
      subst h'
      rw [List.getD_eq_getElem _ _ h1]
      refine ewmGo_nonneg _ ?_ _ 0 0 le_rfl le_rfl (losses_nonneg closes) _
        (List.getElem_mem _)
      rw [rsi_period]
      norm_num
  · rw [if_neg h1] at h
    exact Option.noConfusion h

/-- C8: every defined RSI value lies in [0, 100], and wherever the smoothed
average loss is (defined and) exactly zero, the RSI is undefined (`none`,
i.e. `NaN` via `avg_loss.replace(0, np.nan)`), never infinity. -/
theorem rsi_bounded_and_undefined_on_zero_loss (closes : List ℚ) (i : ℕ) :
    (((calculate_rsi closes).getD i none).elim True fun r => 0 ≤ r ∧ r ≤ 100) ∧
    ((avg_loss closes).getD i none = some 0 → (calculate_rsi closes).getD i none = none) := by
  constructor
  · rcases hres : (calculate_rsi closes).getD i none with _ | r
    · trivial
    · simp only [Option.elim_some]
      rw [calculate_rsi, getD_range_map] at hres
      split_ifs at hres with h1
      · rcases hg : (avg_gain closes).getD i none with _ | g
        · rw [hg] at hres
          rcases (avg_loss closes).getD i none <;> simp at hres
        · rcases hl : (avg_loss closes).getD i none with _ | l
          · rw [hg, hl] at hres
            simp at hres
          · rw [hg, hl] at hres
            by_cases hl0 : l = 0
            · rw [show (match some g, some l with
                  | some g, some l => if l = 0 then none
                    else some (100 - 100 / (1 + g / l))
                  | _, _ => (none : Option ℚ)) =
                  if l = 0 then none else some (100 - 100 / (1 + g / l)) from rfl,
                if_pos hl0] at hres
              exact Option.noConfusion hres
            · rw [show (match some g, some l with
                  | some g, some l => if l = 0 then none
                    else some (100 - 100 / (1 + g / l))
                  | _, _ => (none : Option ℚ)) =
                  if l = 0 then none else some (100 - 100 / (1 + g / l)) from rfl,
                if_neg hl0] at hres
              injection hres with hr
              subst hr
              have hgn : 0 ≤ g := avg_gain_getD_nonneg closes i g hg
              have hln : 0 ≤ l := avg_loss_getD_nonneg closes i l hl
              have hlpos : 0 < l := lt_of_le_of_ne hln (Ne.symm hl0)
              have hrs : 0 ≤ g / l := div_nonneg hgn hln
              have h1p : (0 : ℚ) < 1 + g / l := by linarith
              constructor
              · have hle : 100 / (1 + g / l) ≤ 100 := by
                  rw [div_le_iff₀ h1p]
                  nlinarith
                linarith
              · have hpos : 0 < 100 / (1 + g / l) := by positivity
                linarith
  · intro hl
    rw [calculate_rsi, getD_range_map]
    split_ifs with h1
    · rw [hl]
      rcases hg : (avg_gain closes).getD i none with _ | g <;> simp
    · rfl

theorem losses_replicate_one (n : ℕ) :
    losses (List.replicate n (1 : ℚ)) = List.replicate n 0 := by
  refine List.eq_replicate_iff.mpr ⟨by simp [losses], ?_⟩
  intro b hb
  simp only [losses, List.length_replicate, List.mem_map, List.mem_range] at hb
  obtain ⟨i, hi, rfl⟩ := hb
  split_ifs with h1 h2
  · rfl
  · exfalso
    rw [List.getD_eq_getElem _ _ (by simpa using hi), List.getElem_replicate,
      List.getD_eq_getElem _ _ (by simp; omega), List.getElem_replicate] at h2
    norm_num at h2
  · rfl

theorem ewmGo_zero (alpha : ℚ) : ∀ (n : ℕ) (w : ℚ),
    ewmGo alpha 0 w (List.replicate n (0 : ℚ)) = List.replicate n 0 := by
  intro n
  induction n with
  | zero => intro w; rfl
  | succ m ih =>
    intro w
    rw [List.replicate_succ]
    simp only [ewmGo, mul_zero, add_zero, zero_div]
    rw [ih]

theorem avg_loss_replicate_15 :
    (avg_loss (List.replicate 15 (1 : ℚ))).getD 14 none = some 0 := by
  rw [avg_loss, losses_replicate_one,
    show ewmMean (1 / (rsi_period : ℚ)) (List.replicate 15 0) = List.replicate 15 0 from
      ewmGo_zero _ 15 0,
    withMinPeriods]
  simp only [getD_range_map, List.length_replicate]
  rw [if_pos (by omega : (14 : ℕ) < 15),
    if_neg (by decide : ¬ (14 + 1 < rsi_period)),
    List.getD_eq_getElem _ _ (by simp), List.getElem_replicate]

/-- Witness for C8: a constant price series (15 candles at close 1) has
zero smoothed average loss at index 14 once the 14-sample minimum is met,
and its RSI there is undefined, not infinite. -/
theorem rsi_undefined_on_zero_loss_witness :
    (avg_loss (List.replicate 15 (1 : ℚ))).getD 14 none = some 0 ∧
    (calculate_rsi (List.replicate 15 (1 : ℚ))).getD 14 none = none :=
  ⟨avg_loss_replicate_15,
    (rsi_bounded_and_undefined_on_zero_loss (List.replicate 15 1) 14).2
      avg_loss_replicate_15⟩
